import Mathlib

/-!
Verification of the kNN-graph construction pipeline of `foldseek_umap.py`
(StrucGrouper repository).  The Python `main` function is shallowly embedded
below: machine floats become exact rationals, pandas frames become lists of
records, and the numpy arrays `indices` / `dists` become lists of rows whose
sentinel entries (`-1` index, `+inf` distance) are modelled by `none`.
-/

namespace FoldseekUmap

/-- An input row of the tab-separated file, after positional column naming and
numeric coercion (`foldseek_umap.py` lines 41-54).  A field that is absent in
the file's schema, or whose text failed numeric coercion (pandas `NaN`), is
`none`. -/
structure EdgeRecord where
  query : String
  target : String
  alnlen : Option ℚ := none
  qcov : Option ℚ := none
  tcov : Option ℚ := none
  evalue : Option ℚ := none
  score : Option ℚ := none
  alntmscore : Option ℚ := none
deriving DecidableEq, Repr

/-- An edge whose similarity was resolved (`df["tm"]` after the `dropna` on
line 74). -/
structure ResolvedEdge where
  query : String
  target : String
  tm : ℚ
deriving DecidableEq, Repr

/-- The `evalue` candidate of lines 66-69: kept only when it lies in `[0,1]`
(`ev.where((ev >= 0.0) & (ev <= 1.0))`), otherwise it becomes `NaN`. -/
def plausibleEvalue (e : ℚ) : Option ℚ :=
  if 0 ≤ e ∧ e ≤ 1 then some e else none

/-- Lines 56-71.  `hasAln` records whether the column `alntmscore` exists in
the frame (which the loader decides from the file-wide column count, line 46).
When the column exists, `tm` is the row's `alntmscore` value (possibly `NaN`,
i.e. `none`); otherwise `tm` is the row-wise maximum of the available
candidates `score / 100` and the plausibility-filtered `evalue` (pandas
`max(axis=1)` skips `NaN` entries and returns `NaN` when every candidate is
`NaN`). -/
def resolveTm (hasAln : Bool) (r : EdgeRecord) : Option ℚ :=
  if hasAln then r.alntmscore
  else
    match r.score.map (fun s => s / 100), r.evalue.bind plausibleEvalue with
    | some a, some b => some (max a b)
    | some a, none => some a
    | none, some b => some b
    | none, none => none

/-- Lines 73-74: attach `tm` to every record and drop the rows whose `tm` is
`NaN`, preserving file order. -/
def resolveEdges (hasAln : Bool) (rs : List EdgeRecord) : List ResolvedEdge :=
  rs.filterMap fun r => (resolveTm hasAln r).map fun t => ⟨r.query, r.target, t⟩

/-- Insert an identifier into a sorted duplicate-free list, keeping it sorted
and duplicate-free.  Folding this over all identifiers produces exactly
`sorted(set(...))` of line 77. -/
def insertId (s : String) : List String → List String
  | [] => [s]
  | x :: xs =>
    if s < x then s :: x :: xs
    else if s = x then x :: xs
    else x :: insertId s xs

/-- Line 77: `all_ids = pd.Index(sorted(set(df["query"]) | set(df["target"])))`,
computed from the resolved (post-`dropna`) frame. -/
def nodeIds (es : List ResolvedEdge) : List String :=
  (es.map (fun e => e.query) ++ es.map (fun e => e.target)).foldr insertId []

/-- Line 78: the dictionary `id2ix` sending an identifier to its position in
`all_ids`; `none` models a missing key. -/
def idIx : List String → String → Option ℕ
  | [], _ => none
  | x :: xs, s => if x = s then some 0 else (idIx xs s).map (· + 1)

/-- Lines 82-84: drop self edges, then (only when `min_tm > 0`) drop edges
below the threshold. -/
def filterEdges (minTm : ℚ) (es : List ResolvedEdge) : List ResolvedEdge :=
  let noSelf := es.filter fun e => decide (e.query ≠ e.target)
  if 0 < minTm then noSelf.filter fun e => decide (minTm ≤ e.tm) else noSelf

/-- The sort key of line 87: `sort_values(["query", "tm"],
ascending=[True, False])` — query ascending, then `tm` descending. -/
def edgeLE (a b : ResolvedEdge) : Prop :=
  a.query < b.query ∨ (a.query = b.query ∧ b.tm ≤ a.tm)

instance : DecidableRel edgeLE := fun a b =>
  inferInstanceAs (Decidable (a.query < b.query ∨ (a.query = b.query ∧ b.tm ≤ a.tm)))

instance : IsTotal ResolvedEdge edgeLE where
  total a b := by
    rcases lt_trichotomy a.query b.query with h | h | h
    · exact Or.inl (Or.inl h)
    · rcases le_total b.tm a.tm with h2 | h2
      · exact Or.inl (Or.inr ⟨h, h2⟩)
      · exact Or.inr (Or.inr ⟨h.symm, h2⟩)
    · exact Or.inr (Or.inl h)

instance : IsTrans ResolvedEdge edgeLE where
  trans a b c hab hbc := by
    rcases hab with h1 | ⟨h1, h1t⟩
    · rcases hbc with h2 | ⟨h2, _⟩
      · exact Or.inl (h1.trans h2)
      · exact Or.inl (h2 ▸ h1)
    · rcases hbc with h2 | ⟨h2, h2t⟩
      · exact Or.inl (h1 ▸ h2)
      · exact Or.inr ⟨h1.trans h2, h2t.trans h1t⟩

/-- Line 87: the stable sort of the edge list by (query ascending, `tm`
descending).  For a list of sort keys pandas uses a lexicographic stable sort;
insertion sort realizes exactly that stable sort. -/
def sortEdges (es : List ResolvedEdge) : List ResolvedEdge :=
  List.insertionSort edgeLE es

/-- Helper for `keepTopK`: `cnt` counts, per query, how many of its rows have
already been seen. -/
def keepTopKAux (K : ℕ) (cnt : String → ℕ) : List ResolvedEdge → List ResolvedEdge
  | [] => []
  | e :: rest =>
    let cnt2 := fun s => if s = e.query then cnt s + 1 else cnt s
    if cnt e.query < K then e :: keepTopKAux K cnt2 rest
    else keepTopKAux K cnt2 rest

/-- Line 88: `groupby("query", sort=False).head(K)` — keep, in order, the
first `K` rows of each query group. -/
def keepTopK (K : ℕ) (es : List ResolvedEdge) : List ResolvedEdge :=
  keepTopKAux K (fun _ => 0) es

/-- The clamp of line 105, `np.clip(tm, 0.0, 1.0)`. -/
def clip01 (x : ℚ) : ℚ := max 0 (min x 1)

/-- Lookup of every target index of a group, `sub["target"].map(id2ix)` on
line 103; fails (`none`) as soon as one target is missing from the index. -/
def mapIx (ids : List String) : List ResolvedEdge → Option (List ℕ)
  | [] => some []
  | e :: rest =>
    match idIx ids e.target, mapIx ids rest with
    | some j, some js => some (j :: js)
    | _, _ => none

/-- The group of rows of query `q` (`df.groupby("query")` collects, for each
key, its rows in frame order). -/
def groupEdges (es : List ResolvedEdge) (q : String) : List ResolvedEdge :=
  es.filter fun e => decide (e.query = q)

/-- The row of node `i` (identifier `q`) after lines 92-108: column 0 is the
self loop set on lines 96-98; columns `1..n` receive the group's target
indices and distances `1 - clip(tm, 0, 1)` (lines 101-108, with
`n = min(K, len(group))`); the remaining columns keep the sentinel fill of
lines 92-93, modelled by `none` (for `-1` and `+inf`). -/
def rowFor (ids : List String) (K : ℕ) (es : List ResolvedEdge) (i : ℕ) (q : String) :
    Option (List (Option ℕ) × List (Option ℚ)) :=
  (mapIx ids ((groupEdges es q).take (min K (groupEdges es q).length))).map fun js =>
    (some i :: (js.map some ++ List.replicate (K - min K (groupEdges es q).length) none),
     some 0 ::
       (((groupEdges es q).take (min K (groupEdges es q).length)).map
           (fun e => some (1 - clip01 e.tm)) ++
         List.replicate (K - min K (groupEdges es q).length) none))

/-- All rows, one per identifier, the row of position `i` built by
`rowFor _ _ _ i`. -/
def rowsFrom (ids : List String) (K : ℕ) (es : List ResolvedEdge) :
    ℕ → List String → Option (List (List (Option ℕ) × List (Option ℚ)))
  | _, [] => some []
  | i, q :: qs =>
    match rowFor ids K es i q, rowsFrom ids K es (i + 1) qs with
    | some r, some rest => some (r :: rest)
    | _, _ => none

/-- The pair of arrays `indices` / `dists` of lines 92-108. -/
structure KnnGraph where
  indices : List (List (Option ℕ))
  dists : List (List (Option ℚ))
deriving DecidableEq, Repr

/-- Lines 92-108 as a whole: build the `(N, K+1)` arrays. -/
def assemble (ids : List String) (K : ℕ) (es : List ResolvedEdge) : Option KnnGraph :=
  (rowsFrom ids K es 0 ids).map fun rows => ⟨rows.map Prod.fst, rows.map Prod.snd⟩

/-- The edge set that feeds graph assembly: filters of lines 82-84, stable
sort of line 87, top-K of line 88. -/
def pipelineEdges (K : ℕ) (minTm : ℚ) (res : List ResolvedEdge) : List ResolvedEdge :=
  keepTopK K (sortEdges (filterEdges minTm res))

/-- Lines 56-108 composed: resolve similarities, build the node index, filter
and rank edges, assemble the graph.  Returns the identifier list (`all_ids`)
and the graph. -/
def pipelineGraph (hasAln : Bool) (K : ℕ) (minTm : ℚ) (rs : List EdgeRecord) :
    List String × Option KnnGraph :=
  (nodeIds (resolveEdges hasAln rs),
   assemble (nodeIds (resolveEdges hasAln rs)) K (pipelineEdges K minTm (resolveEdges hasAln rs)))

/-- `main` up to the embedding call: the only fatal check before the graph is
handed to UMAP is the assertion of line 34 (`umap_n_neighbors <= k+1`).  In
particular there is no check that the node set is non-empty. -/
def runMain (K UMAP_K : ℕ) (minTm : ℚ) (hasAln : Bool) (rs : List EdgeRecord) :
    Except String (List String × Option KnnGraph) :=
  if UMAP_K ≤ K + 1 then Except.ok (pipelineGraph hasAln K minTm rs)
  else Except.error "UMAP n_neighbors must be at most k+1 (self is neighbor 0)"

/-- Header row of the coordinates table written on lines 130-131:
`pd.DataFrame({"id": all_ids, "umap_x": Y[:, 0], "umap_y": Y[:, 1]})`. -/
def coordsHeader : List String := ["id", "umap_x", "umap_y"]

/-- Data rows of the coordinates table: identifier `all_ids[r]` joined with
the embedding coordinates of node index `r`, in node-index order. -/
def coordsRows (ids : List String) (Y : List (ℚ × ℚ)) : List (String × ℚ × ℚ) :=
  ids.zip Y

/-! ### Facts about the node index (`all_ids`, `id2ix`) -/

theorem mem_insertId {a s : String} : ∀ (l : List String), a ∈ insertId s l ↔ a = s ∨ a ∈ l
  | [] => by simp [insertId]
  | x :: xs => by
    unfold insertId
    by_cases h1 : s < x
    · simp [h1]
    · by_cases h2 : s = x
      · subst h2
        rw [if_neg h1, if_pos rfl]
        simp only [List.mem_cons]
        tauto
      · simp only [if_neg h1, if_neg h2, List.mem_cons, mem_insertId xs]
        tauto

theorem sorted_insertId {s : String} :
    ∀ {l : List String}, l.Sorted (· < ·) → (insertId s l).Sorted (· < ·)
  | [], _ => by simp [insertId]
  | x :: xs, h => by
    unfold insertId
    rcases List.sorted_cons.mp h with ⟨hx, hxs⟩
    by_cases h1 : s < x
    · rw [if_pos h1]
      refine List.sorted_cons.mpr ⟨?_, h⟩
      intro b hb
      rcases List.mem_cons.mp hb with rfl | hb
      · exact h1
      · exact h1.trans (hx b hb)
    · by_cases h2 : s = x
      · rw [if_neg h1, if_pos h2]
        exact h
      · rw [if_neg h1, if_neg h2]
        refine List.sorted_cons.mpr ⟨?_, sorted_insertId hxs⟩
        intro b hb
        rcases (mem_insertId xs).mp hb with rfl | hb
        · exact lt_of_le_of_ne (le_of_not_lt h1) (Ne.symm h2)
        · exact hx b hb

theorem sorted_foldr_insertId {init : List String} (hinit : init.Sorted (· < ·)) :
    ∀ (l : List String), (l.foldr insertId init).Sorted (· < ·)
  | [] => hinit
  | x :: xs => sorted_insertId (sorted_foldr_insertId hinit xs)

theorem mem_foldr_insertId {a : String} {init : List String} :
    ∀ (l : List String), a ∈ l.foldr insertId init ↔ a ∈ l ∨ a ∈ init
  | [] => by simp
  | x :: xs => by
    simp only [List.foldr_cons, mem_insertId, mem_foldr_insertId xs, List.mem_cons]
    tauto

/-- The node identifier list is sorted strictly increasingly (hence the
positions form the order isomorphism onto `[0, N)`). -/
theorem sorted_nodeIds (es : List ResolvedEdge) : (nodeIds es).Sorted (· < ·) :=
  sorted_foldr_insertId (List.sorted_nil) _

theorem nodup_nodeIds (es : List ResolvedEdge) : (nodeIds es).Nodup :=
  (sorted_nodeIds es).nodup

/-- Membership in the node identifier list: exactly the identifiers that occur
as a query or a target of a resolved edge. -/
theorem mem_nodeIds {s : String} {es : List ResolvedEdge} :
    s ∈ nodeIds es ↔ ∃ e ∈ es, e.query = s ∨ e.target = s := by
  unfold nodeIds
  rw [mem_foldr_insertId _]
  simp only [List.mem_append, List.mem_map, List.not_mem_nil, or_false]
  constructor
  · rintro (⟨e, he, rfl⟩ | ⟨e, he, rfl⟩)
    · exact ⟨e, he, Or.inl rfl⟩
    · exact ⟨e, he, Or.inr rfl⟩
  · rintro ⟨e, he, rfl | rfl⟩
    · exact Or.inl ⟨e, he, rfl⟩
    · exact Or.inr ⟨e, he, rfl⟩

theorem idIx_isSome_of_mem {s : String} :
    ∀ (ids : List String), s ∈ ids → ∃ j, idIx ids s = some j
  | [], h => absurd h (List.not_mem_nil s)
  | x :: xs, h => by
    unfold idIx
    by_cases hx : x = s
    · exact ⟨0, by simp [hx]⟩
    · rcases idIx_isSome_of_mem xs (by
        rcases List.mem_cons.mp h with rfl | h
        · exact absurd rfl hx
        · exact h) with ⟨j, hj⟩
      exact ⟨j + 1, by simp [hx, hj]⟩

theorem idIx_lt_length {s : String} {j : ℕ} :
    ∀ {ids : List String}, idIx ids s = some j → j < ids.length
  | [], h => by simp [idIx] at h
  | x :: xs, h => by
    unfold idIx at h
    split at h
    · cases h
      simp
    · rcases Option.map_eq_some'.mp h with ⟨j0, hj0, rfl⟩
      simpa [Nat.succ_lt_succ_iff] using idIx_lt_length hj0

theorem idIx_of_get? {s : String} :
    ∀ {ids : List String} {j : ℕ}, ids.Nodup → ids.get? j = some s → idIx ids s = some j
  | [], j, _, h => by simp at h
  | x :: xs, 0, _, h => by
    simp only [List.get?] at h
    cases h
    simp [idIx]
  | x :: xs, j + 1, hnd, h => by
    simp only [List.get?] at h
    have hmem : s ∈ xs := List.get?_mem h
    have hx : x ≠ s := fun hxs => (List.nodup_cons.mp hnd).1 (hxs ▸ hmem)
    unfold idIx
    simp [hx, idIx_of_get? (List.nodup_cons.mp hnd).2 h]

/-! ### Facts about target-index lookup (`mapIx`) -/

theorem mapIx_isSome {ids : List String} :
    ∀ {l : List ResolvedEdge}, (∀ e ∈ l, e.target ∈ ids) → ∃ js, mapIx ids l = some js
  | [], _ => ⟨[], rfl⟩
  | e :: rest, h => by
    rcases idIx_isSome_of_mem _ (h e (List.mem_cons_self e rest)) with ⟨j, hj⟩
    rcases mapIx_isSome (fun x hx => h x (List.mem_cons_of_mem e hx)) with ⟨js, hjs⟩
    exact ⟨j :: js, by simp [mapIx, hj, hjs]⟩

theorem mapIx_length_bound {ids : List String} :
    ∀ {l : List ResolvedEdge} {js : List ℕ}, mapIx ids l = some js →
      js.length = l.length ∧ ∀ j ∈ js, j < ids.length
  | [], js, h => by
    cases h
    simp
  | e :: rest, js, h => by
    unfold mapIx at h
    split at h
    · next j js0 hj hjs0 =>
      cases h
      rcases mapIx_length_bound hjs0 with ⟨hlen, hbound⟩
      refine ⟨by simp [hlen], ?_⟩
      intro x hx
      rcases List.mem_cons.mp hx with rfl | hx
      · exact idIx_lt_length hj
      · exact hbound x hx
    · cases h

/-! ### Facts about top-K selection (`groupby(...).head(K)`) -/

theorem keepTopKAux_filter (K : ℕ) (q : String) :
    ∀ (es : List ResolvedEdge) (cnt : String → ℕ),
      (keepTopKAux K cnt es).filter (fun e => decide (e.query = q)) =
        (es.filter (fun e => decide (e.query = q))).take (K - cnt q)
  | [], cnt => by simp [keepTopKAux]
  | e :: rest, cnt => by
    unfold keepTopKAux
    by_cases hq : e.query = q
    · have hc2 : (if q = e.query then cnt q + 1 else cnt q) = cnt q + 1 := if_pos hq.symm
      by_cases hc : cnt e.query < K
      · rw [if_pos hc, List.filter_cons_of_pos (by simp [hq]),
          keepTopKAux_filter K q rest _, hc2]
        have hK : K - cnt q = (K - (cnt q + 1)) + 1 := by
          rw [hq] at hc
          omega
        rw [List.filter_cons_of_pos (by simp [hq]), hK, List.take_succ_cons]
      · rw [if_neg hc, keepTopKAux_filter K q rest _, hc2]
        rw [hq] at hc
        have h1 : K - (cnt q + 1) = 0 := by omega
        have h2 : K - cnt q = 0 := by omega
        rw [h1, h2, List.filter_cons_of_pos (by simp [hq]), List.take_zero, List.take_zero]
    · have hc2 : (if q = e.query then cnt q + 1 else cnt q) = cnt q :=
        if_neg (fun h => hq h.symm)
      by_cases hc : cnt e.query < K
      · rw [if_pos hc, List.filter_cons_of_neg (by simp [hq]),
          keepTopKAux_filter K q rest _, hc2, List.filter_cons_of_neg (by simp [hq])]
      · rw [if_neg hc, keepTopKAux_filter K q rest _, hc2,
          List.filter_cons_of_neg (by simp [hq])]

/-- Per-query content of `groupby("query", sort=False).head(K)`: the group of
`q` after top-K selection is the first `K` rows of the group of `q` before it,
in unchanged order. -/
theorem keepTopK_filter (K : ℕ) (q : String) (es : List ResolvedEdge) :
    (keepTopK K es).filter (fun e => decide (e.query = q)) =
      (es.filter (fun e => decide (e.query = q))).take K := by
  rw [keepTopK, keepTopKAux_filter K q es _, Nat.sub_zero]

theorem keepTopKAux_subset (K : ℕ) {a : ResolvedEdge} :
    ∀ {es : List ResolvedEdge} {cnt : String → ℕ}, a ∈ keepTopKAux K cnt es → a ∈ es
  | [], _, h => absurd h (List.not_mem_nil a)
  | e :: rest, cnt, h => by
    unfold keepTopKAux at h
    by_cases hc : cnt e.query < K
    · rw [if_pos hc] at h
      rcases List.mem_cons.mp h with rfl | h
      · exact List.mem_cons_self a rest
      · exact List.mem_cons_of_mem e (keepTopKAux_subset K h)
    · rw [if_neg hc] at h
      exact List.mem_cons_of_mem e (keepTopKAux_subset K h)

theorem keepTopK_subset (K : ℕ) {a : ResolvedEdge} {es : List ResolvedEdge}
    (h : a ∈ keepTopK K es) : a ∈ es :=
  keepTopKAux_subset K h

/-! ### Facts about the stable sort of line 87 -/

theorem mem_sortEdges {a : ResolvedEdge} {es : List ResolvedEdge} :
    a ∈ sortEdges es ↔ a ∈ es :=
  (List.perm_insertionSort edgeLE es).mem_iff

theorem sorted_sortEdges (es : List ResolvedEdge) : (sortEdges es).Sorted edgeLE :=
  List.sorted_insertionSort edgeLE es

theorem filter_orderedInsert (P : ResolvedEdge → Bool) (a : ResolvedEdge)
    (l : List ResolvedEdge) (h : P a = true → ∀ b, P b = true → edgeLE a b) :
    (List.orderedInsert edgeLE a l).filter P =
      if P a then a :: l.filter P else l.filter P := by
  rw [List.orderedInsert_eq_take_drop, List.filter_append]
  cases hPa : P a
  · rw [List.filter_cons_of_neg (by simp [hPa]), ← List.filter_append,
      List.takeWhile_append_dropWhile]
    simp
  · have htw : (l.takeWhile fun b => decide ¬(edgeLE a b)).filter P = [] := by
      rw [List.filter_eq_nil_iff]
      intro b hb hPb
      have hpb := List.mem_takeWhile_imp hb
      rw [decide_eq_true_eq] at hpb
      exact hpb (h hPa b hPb)
    rw [htw, List.filter_cons_of_pos (by simp [hPa]), List.nil_append, if_pos rfl]
    have : l.filter P = (l.takeWhile fun b => decide ¬(edgeLE a b)).filter P ++
        (l.dropWhile fun b => decide ¬(edgeLE a b)).filter P := by
      rw [← List.filter_append, List.takeWhile_append_dropWhile]
    rw [this, htw, List.nil_append]

/-- Stability of the sort of line 87: a class of mutually tied rows keeps its
original relative order (stated through `filter`: the subsequence of rows
satisfying a tie-compatible predicate is unchanged by the sort). -/
theorem filter_sortEdges (P : ResolvedEdge → Bool)
    (hP : ∀ a b, P a = true → P b = true → edgeLE a b) :
    ∀ es : List ResolvedEdge, (sortEdges es).filter P = es.filter P
  | [] => rfl
  | e :: es => by
    show (List.orderedInsert edgeLE e (sortEdges es)).filter P = _
    rw [filter_orderedInsert P e _ (fun hPa b hPb => hP e b hPa hPb),
      filter_sortEdges P hP es]
    cases hPe : P e
    · rw [if_neg (by simp [hPe]), List.filter_cons_of_neg (by simp [hPe])]
    · rw [if_pos rfl, List.filter_cons_of_pos (by simp [hPe])]

/-- Within one query group of the sorted frame, `tm` is non-increasing. -/
theorem sorted_tm_group (es : List ResolvedEdge) (q : String) :
    ((sortEdges es).filter (fun e => decide (e.query = q))).Sorted
      (fun a b => b.tm ≤ a.tm) := by
  have h := (sorted_sortEdges es).filter (fun e => decide (e.query = q))
  refine h.imp_of_mem ?_
  intro a b ha hb hab
  have haq : a.query = q := of_decide_eq_true (List.mem_filter.mp ha).2
  have hbq : b.query = q := of_decide_eq_true (List.mem_filter.mp hb).2
  rcases hab with hlt | ⟨_, hle⟩
  · rw [haq, hbq] at hlt
    exact absurd hlt (lt_irrefl q)
  · exact hle

/-! ### Facts about row and graph assembly -/

theorem groupEdges_keepTopK (K : ℕ) (q : String) (es : List ResolvedEdge) :
    groupEdges (keepTopK K es) q = (groupEdges es q).take K :=
  keepTopK_filter K q es

theorem sorted_tm_groupEdges (es : List ResolvedEdge) (q : String) :
    (groupEdges (sortEdges es) q).Sorted (fun a b => b.tm ≤ a.tm) :=
  sorted_tm_group es q

theorem groupEdges_subset {es : List ResolvedEdge} {q : String} {a : ResolvedEdge}
    (h : a ∈ groupEdges es q) : a ∈ es :=
  (List.mem_filter.mp h).1

theorem mem_groupEdges_query {es : List ResolvedEdge} {q : String} {a : ResolvedEdge}
    (h : a ∈ groupEdges es q) : a.query = q :=
  of_decide_eq_true (List.mem_filter.mp h).2

/-- Characterization of a successfully assembled row. -/
theorem rowFor_spec {ids : List String} {K : ℕ} {es : List ResolvedEdge} {i : ℕ} {q : String}
    {r : List (Option ℕ) × List (Option ℚ)} (h : rowFor ids K es i q = some r) :
    ∃ js, mapIx ids ((groupEdges es q).take (min K (groupEdges es q).length)) = some js ∧
      r.1 = some i ::
        (js.map some ++ List.replicate (K - min K (groupEdges es q).length) none) ∧
      r.2 = some 0 ::
        (((groupEdges es q).take (min K (groupEdges es q).length)).map
            (fun e => some (1 - clip01 e.tm)) ++
          List.replicate (K - min K (groupEdges es q).length) none) := by
  unfold rowFor at h
  rcases Option.map_eq_some'.mp h with ⟨js, hjs, hr⟩
  exact ⟨js, hjs, by rw [← hr], by rw [← hr]⟩

theorem rowFor_isSome (ids : List String) (K : ℕ) (es : List ResolvedEdge) (i : ℕ) (q : String)
    (h : ∀ e ∈ es, e.target ∈ ids) : ∃ r, rowFor ids K es i q = some r := by
  have hsub : ∀ e ∈ (groupEdges es q).take (min K (groupEdges es q).length), e.target ∈ ids :=
    fun e he => h e (groupEdges_subset (List.mem_of_mem_take he))
  rcases mapIx_isSome hsub with ⟨js, hjs⟩
  unfold rowFor
  rw [hjs]
  exact ⟨_, rfl⟩

theorem rowsFrom_isSome (ids : List String) (K : ℕ) (es : List ResolvedEdge)
    (h : ∀ e ∈ es, e.target ∈ ids) :
    ∀ (qs : List String) (i : ℕ), ∃ rows, rowsFrom ids K es i qs = some rows
  | [], _ => ⟨[], rfl⟩
  | q :: qs, i => by
    rcases rowFor_isSome ids K es i q h with ⟨r, hr⟩
    rcases rowsFrom_isSome ids K es h qs (i + 1) with ⟨rows, hrows⟩
    exact ⟨r :: rows, by simp [rowsFrom, hr, hrows]⟩

theorem rowsFrom_length {ids : List String} {K : ℕ} {es : List ResolvedEdge} :
    ∀ {qs : List String} {i : ℕ} {rows : List (List (Option ℕ) × List (Option ℚ))},
      rowsFrom ids K es i qs = some rows → rows.length = qs.length
  | [], i, rows, h => by
    cases h
    rfl
  | q :: qs, i, rows, h => by
    unfold rowsFrom at h
    split at h
    · next r rest hr hrest =>
      cases h
      simp [rowsFrom_length hrest]
    · cases h

/-- Every row of a successful assembly is the `rowFor` of its position. -/
theorem rowsFrom_get? {ids : List String} {K : ℕ} {es : List ResolvedEdge} :
    ∀ {qs : List String} {i : ℕ} {rows : List (List (Option ℕ) × List (Option ℚ))},
      rowsFrom ids K es i qs = some rows →
      ∀ (k : ℕ) (r : List (Option ℕ) × List (Option ℚ)), rows.get? k = some r →
        ∃ q, qs.get? k = some q ∧ rowFor ids K es (i + k) q = some r
  | [], _, rows, h, k, r, hk => by
    cases h
    simp at hk
  | q :: qs, i, rows, h, k, r, hk => by
    unfold rowsFrom at h
    split at h
    · next r0 rest hr0 hrest =>
      cases h
      match k, hk with
      | 0, hk =>
        cases hk
        exact ⟨q, rfl, by simpa using hr0⟩
      | k + 1, hk =>
        rcases rowsFrom_get? hrest k r (by simpa using hk) with ⟨q1, hq1, hrow⟩
        refine ⟨q1, by simpa using hq1, ?_⟩
        have hik : i + 1 + k = i + (k + 1) := by omega
        rwa [hik] at hrow
    · cases h

/-! ### Pipeline-level facts -/

theorem filterEdges_subset {minTm : ℚ} {es : List ResolvedEdge} {a : ResolvedEdge}
    (h : a ∈ filterEdges minTm es) : a ∈ es := by
  simp only [filterEdges] at h
  split at h
  · exact (List.mem_filter.mp (List.mem_filter.mp h).1).1
  · exact (List.mem_filter.mp h).1

theorem pipelineEdges_subset {K : ℕ} {minTm : ℚ} {res : List ResolvedEdge} {e : ResolvedEdge}
    (h : e ∈ pipelineEdges K minTm res) : e ∈ res :=
  filterEdges_subset (mem_sortEdges.mp (keepTopK_subset K h))

theorem pipelineEdges_target_mem {K : ℕ} {minTm : ℚ} {res : List ResolvedEdge}
    {e : ResolvedEdge} (h : e ∈ pipelineEdges K minTm res) : e.target ∈ nodeIds res :=
  mem_nodeIds.mpr ⟨e, pipelineEdges_subset h, Or.inr rfl⟩

theorem assemble_spec {ids : List String} {K : ℕ} {es : List ResolvedEdge} {g : KnnGraph}
    (h : assemble ids K es = some g) :
    ∃ rows, rowsFrom ids K es 0 ids = some rows ∧
      g.indices = rows.map Prod.fst ∧ g.dists = rows.map Prod.snd := by
  unfold assemble at h
  rcases Option.map_eq_some'.mp h with ⟨rows, hrows, hg⟩
  exact ⟨rows, hrows, by rw [← hg], by rw [← hg]⟩

/-- Graph assembly always succeeds on the pipeline's own edge set: every
target of a surviving edge is present in the node index. -/
theorem pipelineGraph_isSome (hasAln : Bool) (K : ℕ) (minTm : ℚ) (rs : List EdgeRecord) :
    ∃ g, (pipelineGraph hasAln K minTm rs).2 = some g := by
  rcases rowsFrom_isSome (nodeIds (resolveEdges hasAln rs)) K
      (pipelineEdges K minTm (resolveEdges hasAln rs))
      (fun e he => pipelineEdges_target_mem he)
      (nodeIds (resolveEdges hasAln rs)) 0 with ⟨rows, hrows⟩
  refine ⟨⟨rows.map Prod.fst, rows.map Prod.snd⟩, ?_⟩
  show assemble _ _ _ = _
  unfold assemble
  rw [hrows]
  rfl

/-- Access to a row of the assembled graph: position `i` of `indices` and of
`dists` come from `rowFor` at position `i` and the identifier at position
`i`. -/
theorem pipelineGraph_row {hasAln : Bool} {K : ℕ} {minTm : ℚ} {rs : List EdgeRecord}
    {g : KnnGraph} (hg : (pipelineGraph hasAln K minTm rs).2 = some g) :
    g.indices.length = (nodeIds (resolveEdges hasAln rs)).length ∧
    g.dists.length = (nodeIds (resolveEdges hasAln rs)).length ∧
    ∀ i : ℕ, i < (nodeIds (resolveEdges hasAln rs)).length →
      ∃ q r, (nodeIds (resolveEdges hasAln rs)).get? i = some q ∧
        rowFor (nodeIds (resolveEdges hasAln rs)) K
          (pipelineEdges K minTm (resolveEdges hasAln rs)) i q = some r ∧
        g.indices.get? i = some r.1 ∧ g.dists.get? i = some r.2 := by
  rcases assemble_spec hg with ⟨rows, hrows, hgi, hgd⟩
  have hlen : rows.length = (nodeIds (resolveEdges hasAln rs)).length := rowsFrom_length hrows
  refine ⟨by rw [hgi, List.length_map, hlen], by rw [hgd, List.length_map, hlen], ?_⟩
  intro i hi
  have hrlt : i < rows.length := by rw [hlen]; exact hi
  have hget : rows.get? i = some (rows.get ⟨i, hrlt⟩) := List.get?_eq_get hrlt
  rcases rowsFrom_get? hrows i _ hget with ⟨q, hq, hrow⟩
  refine ⟨q, rows.get ⟨i, hrlt⟩, hq, by simpa using hrow, ?_, ?_⟩
  · rw [hgi, List.get?_map, hget]
    rfl
  · rw [hgd, List.get?_map, hget]
    rfl

theorem filterMap_id_replicate_none {α : Type} (m : ℕ) :
    (List.replicate m (none : Option α)).filterMap id = [] := by
  induction m with
  | zero => rfl
  | succ n ih => simp [List.replicate_succ, List.filterMap_cons, ih]

theorem filterMap_id_padded {α : Type} (l : List α) (m : ℕ) :
    (l.map some ++ List.replicate m none).filterMap id = l := by
  rw [List.filterMap_append, filterMap_id_replicate_none, List.append_nil]
  induction l with
  | nil => rfl
  | cons a l ih => simp [List.filterMap_cons, ih]

theorem filterMap_id_some_padded {α β : Type} (g : α → β) (l : List α) (m : ℕ) :
    ((l.map fun a => some (g a)) ++ List.replicate m none).filterMap id = l.map g := by
  rw [List.filterMap_append, filterMap_id_replicate_none, List.append_nil]
  induction l with
  | nil => rfl
  | cons a l ih => simp [List.filterMap_cons, ih]

/-! ### Claim C1 -/

/-- C1 counterexample: similarity resolution is not per-record.  In an input
whose other records carry `alntmscore` (so the column exists), a record with a
null `alntmscore` but `score = 80` is dropped instead of resolving to
`tm = 0.8`. -/
theorem c1_per_file_not_per_record :
    resolveEdges true
        [{ query := "A", target := "B", alntmscore := some (1 / 2) },
         { query := "C", target := "D", score := some 80 }] =
      [{ query := "A", target := "B", tm := 1 / 2 }] ∧
    resolveTm true { query := "C", target := "D", score := some 80 } = none := by
  constructor
  · norm_num [resolveEdges, resolveTm, List.filterMap_cons]
  · rfl

/-- C1 (amended): resolution is keyed on the presence of the `alntmscore`
column, not on each record.  When the column is absent, `tm` is the row-wise
maximum of the plausibility-filtered candidates — `score / 100` whenever
`score` is present, `evalue` only when it lies in `[0, 1]` — so a record with
`score = 80` and no `evalue` resolves to `0.8`.  When the column is present, a
record whose `alntmscore` is null is dropped, never resolved by fallback. -/
theorem c1_column_keyed_fallback (r : EdgeRecord) :
    (∀ s, r.score = some s → r.evalue = none → resolveTm false r = some (s / 100)) ∧
    (∀ s e, r.score = some s → r.evalue = some e → 0 ≤ e → e ≤ 1 →
      resolveTm false r = some (max (s / 100) e)) ∧
    (∀ s e, r.score = some s → r.evalue = some e → ¬(0 ≤ e ∧ e ≤ 1) →
      resolveTm false r = some (s / 100)) ∧
    (∀ e, r.score = none → r.evalue = some e → 0 ≤ e → e ≤ 1 →
      resolveTm false r = some e) ∧
    (∀ e, r.score = none → r.evalue = some e → ¬(0 ≤ e ∧ e ≤ 1) →
      resolveTm false r = none) ∧
    (r.score = none → r.evalue = none → resolveTm false r = none) ∧
    (r.alntmscore = none → resolveTm true r = none) ∧
    (∀ t, r.alntmscore = some t → resolveTm true r = some t) := by
  refine ⟨?_, ?_, ?_, ?_, ?_, ?_, ?_, ?_⟩
  · intro s hs he
    simp [resolveTm, hs, he]
  · intro s e hs he h0 h1
    simp [resolveTm, hs, he, plausibleEvalue, h0, h1]
  · intro s e hs he hno
    simp [resolveTm, hs, he, plausibleEvalue, hno]
  · intro e hs he h0 h1
    simp [resolveTm, hs, he, plausibleEvalue, h0, h1]
  · intro e hs he hno
    simp [resolveTm, hs, he, plausibleEvalue, hno]
  · intro hs he
    simp [resolveTm, hs, he]
  · intro ha
    simp [resolveTm, ha]
  · intro t ha
    simp [resolveTm, ha]

theorem c1_column_keyed_fallback_witness :
    resolveTm false { query := "C", target := "D", score := some 80 } = some (80 / 100) ∧
    resolveTm false { query := "E", target := "F", evalue := some 1 } = some 1 :=
  ⟨(c1_column_keyed_fallback { query := "C", target := "D", score := some 80 }).1 80 rfl rfl,
   (c1_column_keyed_fallback { query := "E", target := "F", evalue := some 1 }).2.2.2.1
     1 rfl rfl zero_le_one (le_refl 1)⟩

/-! ### Claim C2 -/

/-- C2 counterexample: identifiers that occur only on edges whose similarity
could not be resolved are excluded from the node set — the `dropna` of line 74
runs before `all_ids` is built on line 77.  Here `"C"` and `"D"` appear in a
loaded record (whose `evalue = 5` is implausible and `score` is absent), yet
the node set is only `["A", "B"]`. -/
theorem c2_unresolved_ids_excluded :
    nodeIds (resolveEdges false
        [{ query := "A", target := "B", score := some 50 },
         { query := "C", target := "D", evalue := some 5 }]) = ["A", "B"] ∧
    "C" ∉ nodeIds (resolveEdges false
        [{ query := "A", target := "B", score := some 50 },
         { query := "C", target := "D", evalue := some 5 }]) := by
  have h : nodeIds (resolveEdges false
      [{ query := "A", target := "B", score := some 50 },
       { query := "C", target := "D", evalue := some 5 }]) = ["A", "B"] := by
    norm_num +decide [nodeIds, resolveEdges, resolveTm, plausibleEvalue, insertId,
      List.filterMap_cons]
  refine ⟨h, ?_⟩
  rw [h]
  decide

/-- C2 (amended): the node set is the lexicographically sorted union of every
identifier appearing in the query or target role of any *resolved* record
(records whose similarity resolution failed are dropped first), and index
assignment is a bijection from that sorted duplicate-free list onto
`[0, N)`. -/
theorem c2_sorted_bijection (es : List ResolvedEdge) :
    (nodeIds es).Sorted (· < ·) ∧ (nodeIds es).Nodup ∧
    (∀ s, s ∈ nodeIds es ↔ ∃ e ∈ es, e.query = s ∨ e.target = s) ∧
    (∀ j s, (nodeIds es).get? j = some s → idIx (nodeIds es) s = some j) ∧
    (∀ s j, idIx (nodeIds es) s = some j → j < (nodeIds es).length) :=
  ⟨sorted_nodeIds es, nodup_nodeIds es, fun _ => mem_nodeIds,
   fun _ _ h => idIx_of_get? (nodup_nodeIds es) h, fun _ _ h => idIx_lt_length h⟩

theorem c2_sorted_bijection_witness :
    (nodeIds [⟨"B", "A", 1⟩]).Sorted (· < ·) ∧
    idIx (nodeIds [⟨"B", "A", 1⟩]) "B" = some 1 :=
  ⟨(c2_sorted_bijection [⟨"B", "A", 1⟩]).1,
   (c2_sorted_bijection [⟨"B", "A", 1⟩]).2.2.2.1 1 "B"
     (by simp [nodeIds, insertId, List.get?]
         decide)⟩

/-! ### Claim C5 -/

/-- C5 counterexample: a retained resolved edge can carry `tm` outside
`[0, 1]`.  With the basic (7-column) schema and `score = 500`, the resolver
yields `tm = 5.0` and the edge survives every filter; nothing clamps the
retained `tm` itself. -/
theorem c5_tm_not_clamped :
    pipelineEdges 50 0 (resolveEdges false
        [{ query := "A", target := "B", score := some 500 }]) =
      [{ query := "A", target := "B", tm := 5 }] ∧
    ¬ (({ query := "A", target := "B", tm := 5 } : ResolvedEdge).tm ≤ 1) := by
  constructor
  · norm_num +decide [pipelineEdges, resolveEdges, resolveTm, filterEdges, sortEdges,
      keepTopK, keepTopKAux, List.filterMap_cons]
  · norm_num

/-- C5 (amended): the `[0, 1]` guarantee holds for the assembled distances,
not for retained `tm`: every populated distance of a row equals
`1 - clip(tm, 0, 1)` (or `0` in the self column) and therefore lies in
`[0, 1]`, even when the retained `tm` is out of range. -/
theorem c5_distances_clipped (ids : List String) (K : ℕ) (es : List ResolvedEdge)
    (i : ℕ) (q : String) (h : (rowFor ids K es i q).isSome = true) :
    ∀ d : ℚ, some d ∈ ((rowFor ids K es i q).get h).2 → 0 ≤ d ∧ d ≤ 1 := by
  intro d hd
  have hsome : rowFor ids K es i q = some ((rowFor ids K es i q).get h) :=
    Option.eq_some_of_isSome h
  rcases rowFor_spec hsome with ⟨js, hjs, _, h2⟩
  rw [h2] at hd
  rcases List.mem_cons.mp hd with h0 | hd
  · cases Option.some.inj h0
    norm_num
  · rcases List.mem_append.mp hd with hd | hd
    · rcases List.mem_map.mp hd with ⟨e, _, heq⟩
      cases Option.some.inj heq
      constructor
      · have hcl : clip01 e.tm ≤ 1 := max_le (by norm_num) (min_le_right _ _)
        linarith
      · have hcl : 0 ≤ clip01 e.tm := le_max_left 0 _
        linarith
    · exact absurd (List.eq_of_mem_replicate hd) (by simp)

theorem c5_distances_clipped_witness :
    (rowFor ["A", "B"] 1 [⟨"A", "B", 5⟩] 0 "A").isSome = true ∧
    (0 ≤ (0 : ℚ) ∧ (0 : ℚ) ≤ 1) :=
  ⟨by decide,
   c5_distances_clipped ["A", "B"] 1 [⟨"A", "B", 5⟩] 0 "A" (by decide) 0
     (List.mem_cons_self _ _)⟩

/-! ### Claim C8 -/

/-- C8: with zero resolvable edges the node set is empty (`N = 0`), yet the
program does not abort: the only pre-embedding check is the
`umap_n_neighbors <= k+1` assertion, so the run proceeds to the embedding
invocation with empty `(0, K+1)` arrays instead of exiting with a descriptive
error beforehand. -/
theorem c8_zero_nodes_no_abort :
    runMain 50 30 0 false [{ query := "A", target := "B", evalue := some 5 }] =
      Except.ok ([], some ⟨[], []⟩) := by
  norm_num +decide [runMain, pipelineGraph, resolveEdges, resolveTm, plausibleEvalue,
    nodeIds, pipelineEdges, filterEdges, sortEdges, keepTopK, keepTopKAux, assemble,
    rowsFrom, List.filterMap_cons]

/-! ### Claim C9 -/

/-- C9 counterexample: the coordinates header written on lines 130-131 is
`id, umap_x, umap_y`, not `id, x, y`. -/
theorem c9_header_not_id_x_y :
    coordsHeader = ["id", "umap_x", "umap_y"] ∧ coordsHeader ≠ ["id", "x", "y"] :=
  ⟨rfl, by decide⟩

/-- C9 (amended): the coordinates table is tab-separated with header columns
`id, umap_x, umap_y` and contains exactly one row per node, emitted in
node-index order (identifiers in lexicographically sorted order, as produced
by the node index). -/
theorem c9_rows_in_index_order (ids : List String) (Y : List (ℚ × ℚ))
    (h : Y.length = ids.length) :
    coordsHeader = ["id", "umap_x", "umap_y"] ∧
    (coordsRows ids Y).map Prod.fst = ids ∧
    (coordsRows ids Y).length = ids.length := by
  refine ⟨rfl, ?_, ?_⟩
  · exact List.map_fst_zip ids Y (le_of_eq h.symm)
  · rw [coordsRows, List.length_zip, h, min_self]

theorem c9_rows_in_index_order_witness :
    ([((0 : ℚ), (0 : ℚ))].length = ["A"].length) ∧
    (coordsRows ["A"] [((0 : ℚ), (0 : ℚ))]).map Prod.fst = ["A"] :=
  ⟨rfl, (c9_rows_in_index_order ["A"] [((0 : ℚ), (0 : ℚ))] rfl).2.1⟩

/-! ### Claim C3 -/

/-- C3: per-query ranking.  For every query group `g` of the sorted frame:
`tm` is non-increasing along `g`; the sort is stable (rows with equal `tm` —
in fact any tie class — keep their input order, stated via `filter`); top-K
keeps exactly the first `K` rows of `g`; and the row assembled for that query
receives exactly those rows' target indices and distances, in that order. -/
theorem c3_stable_ranking (hasAln : Bool) (K : ℕ) (minTm t : ℚ) (rs : List EdgeRecord)
    (q : String) (es g : List ResolvedEdge)
    (hes : es = filterEdges minTm (resolveEdges hasAln rs))
    (hg : g = groupEdges (sortEdges es) q) :
    g.Sorted (fun a b => b.tm ≤ a.tm) ∧
    g.filter (fun e => decide (e.tm = t)) =
      es.filter (fun e => decide (e.query = q ∧ e.tm = t)) ∧
    groupEdges (keepTopK K (sortEdges es)) q = g.take K ∧
    (∀ ids i js, mapIx ids (g.take K) = some js →
      rowFor ids K (keepTopK K (sortEdges es)) i q =
        some (some i :: (js.map some ++ List.replicate (K - (g.take K).length) none),
              some 0 :: ((g.take K).map (fun e => some (1 - clip01 e.tm)) ++
                List.replicate (K - (g.take K).length) none))) := by
  have h3 : groupEdges (keepTopK K (sortEdges es)) q = g.take K := by
    rw [hg]
    exact groupEdges_keepTopK K q (sortEdges es)
  refine ⟨?_, ?_, h3, ?_⟩
  · rw [hg]
    exact sorted_tm_groupEdges es q
  · have hP : ∀ a b : ResolvedEdge, decide (a.query = q ∧ a.tm = t) = true →
        decide (b.query = q ∧ b.tm = t) = true → edgeLE a b := by
      intro a b ha hb
      rw [decide_eq_true_eq] at ha hb
      exact Or.inr ⟨ha.1.trans hb.1.symm, by rw [ha.2, hb.2]⟩
    have hfun : (fun e : ResolvedEdge => decide (e.tm = t) && decide (e.query = q)) =
        fun e : ResolvedEdge => decide (e.query = q ∧ e.tm = t) := by
      funext e
      simp [Bool.and_comm]
    rw [hg, groupEdges, List.filter_filter, hfun, filter_sortEdges _ hP es]
  · intro ids i js hjs
    unfold rowFor
    rw [h3]
    have hlen : (g.take K).length ≤ K := by
      rw [List.length_take]
      exact min_le_left _ _
    rw [min_eq_right hlen, List.take_length, hjs, Option.map_some']

theorem c3_stable_ranking_witness :
    rowFor ["A", "B", "C", "D"] 2
        (keepTopK 2 (sortEdges [⟨"A", "B", 1⟩, ⟨"A", "C", 1⟩, ⟨"A", "D", 0⟩])) 0 "A" =
      some (some 0 :: ([1, 2].map some ++
          List.replicate
            (2 - (([⟨"A", "B", 1⟩, ⟨"A", "C", 1⟩, ⟨"A", "D", 0⟩] :
              List ResolvedEdge).take 2).length) none),
        some 0 :: ((([⟨"A", "B", 1⟩, ⟨"A", "C", 1⟩, ⟨"A", "D", 0⟩] :
            List ResolvedEdge).take 2).map (fun e => some (1 - clip01 e.tm)) ++
          List.replicate
            (2 - (([⟨"A", "B", 1⟩, ⟨"A", "C", 1⟩, ⟨"A", "D", 0⟩] :
              List ResolvedEdge).take 2).length) none)) :=
  (c3_stable_ranking true 2 0 1
      [{ query := "A", target := "B", alntmscore := some 1 },
       { query := "A", target := "C", alntmscore := some 1 },
       { query := "A", target := "D", alntmscore := some 0 }]
      "A" [⟨"A", "B", 1⟩, ⟨"A", "C", 1⟩, ⟨"A", "D", 0⟩]
      [⟨"A", "B", 1⟩, ⟨"A", "C", 1⟩, ⟨"A", "D", 0⟩]
      (by simp [filterEdges, resolveEdges, resolveTm, List.filterMap_cons])
      (by simp [groupEdges, sortEdges, edgeLE])).2.2.2
    ["A", "B", "C", "D"] 0 [1, 2] (by decide)

/-! ### Claim C4 -/

/-- C4 counterexample: neighbors are not deduplicated.  Two records with the
same `(query, target)` pair both survive, and the row of `"A"` carries the
index of `"B"` twice among its populated neighbor columns. -/
theorem c4_duplicate_neighbor_columns :
    ((pipelineGraph true 2 0
        [{ query := "A", target := "B", alntmscore := some 1 },
         { query := "A", target := "B", alntmscore := some 0 }]).2).map KnnGraph.indices =
      some [[some 0, some 1, some 1], [some 1, none, none]] ∧
    ¬ (∀ row ∈ [[some (0 : ℕ), some 1, some 1], [some (1 : ℕ), none, none]],
        ((row.drop 1).filterMap id).Nodup) := by
  constructor
  · norm_num +decide [pipelineGraph, resolveEdges, resolveTm, nodeIds, insertId,
      pipelineEdges, filterEdges, sortEdges, edgeLE, keepTopK, keepTopKAux, assemble,
      rowsFrom, rowFor, groupEdges, mapIx, idIx, List.filterMap_cons]
  · decide

/-- C4 (amended): duplicates are kept, one column per retained record: the
number of populated neighbor entries of a row equals `min K (group size)`,
counting each duplicate `(query, target)` record separately, so populated
entries need not be pairwise distinct. -/
theorem c4_no_dedup_populated_count (ids : List String) (K : ℕ) (es : List ResolvedEdge)
    (i : ℕ) (q : String) (h : (rowFor ids K es i q).isSome = true) :
    ((((rowFor ids K es i q).get h).1.drop 1).filterMap id).length =
      min K (groupEdges es q).length := by
  have hsome := Option.eq_some_of_isSome h
  rcases rowFor_spec hsome with ⟨js, hjs, h1, -⟩
  rw [h1, List.drop_succ_cons, List.drop_zero, filterMap_id_padded]
  rcases mapIx_length_bound hjs with ⟨hlen, -⟩
  rw [hlen, List.length_take, min_eq_left (min_le_right K _)]

theorem c4_no_dedup_populated_count_witness :
    (rowFor ["A", "B"] 2 [⟨"A", "B", 1⟩, ⟨"A", "B", 0⟩] 0 "A").map
        (fun r => ((r.1.drop 1).filterMap id).length) =
      some (min 2 (groupEdges [⟨"A", "B", 1⟩, ⟨"A", "B", 0⟩] "A").length) := by
  have h : (rowFor ["A", "B"] 2 [⟨"A", "B", 1⟩, ⟨"A", "B", 0⟩] 0 "A").isSome = true := by
    decide
  rw [Option.eq_some_of_isSome h, Option.map_some']
  exact congrArg some (c4_no_dedup_populated_count ["A", "B"] 2 _ 0 "A" h)

/-! ### Claim C6 -/

/-- C6: self-loop invariant.  In every assembled graph of the pipeline, row
`i` holds its own index at column 0 of `indices` and distance 0 at column 0
of `dists`; neighbor entries only ever occupy columns `1..K`, so column 0 is
never overwritten. -/
theorem c6_self_loop (hasAln : Bool) (K : ℕ) (minTm : ℚ) (rs : List EdgeRecord)
    (g : KnnGraph) (hg : (pipelineGraph hasAln K minTm rs).2 = some g) :
    (∀ i ri, g.indices.get? i = some ri → ri.get? 0 = some (some i)) ∧
    (∀ i rd, g.dists.get? i = some rd → rd.get? 0 = some (some 0)) := by
  rcases pipelineGraph_row hg with ⟨hleni, hlend, hrow⟩
  constructor
  · intro i ri hi
    obtain ⟨hlt, -⟩ := List.get?_eq_some.mp hi
    rw [hleni] at hlt
    rcases hrow i hlt with ⟨q, r, hq, hrf, hgi, hgd⟩
    rw [hi] at hgi
    rcases rowFor_spec hrf with ⟨js, hjs, h1, h2⟩
    rw [Option.some.inj hgi, h1]
    rfl
  · intro i rd hi
    obtain ⟨hlt, -⟩ := List.get?_eq_some.mp hi
    rw [hlend] at hlt
    rcases hrow i hlt with ⟨q, r, hq, hrf, hgi, hgd⟩
    rw [hi] at hgd
    rcases rowFor_spec hrf with ⟨js, hjs, h1, h2⟩
    rw [Option.some.inj hgd, h2]
    rfl

theorem c6_self_loop_witness :
    ((pipelineGraph true 1 0 [{ query := "B", target := "A", alntmscore := some 1 }]).2 =
      some ⟨[[some 0, none], [some 1, some 0]],
            [[some 0, none], [some 0, some (1 - clip01 1)]]⟩) ∧
    ([some (1 : ℕ), some 0] : List (Option ℕ)).get? 0 = some (some 1) := by
  have hg : (pipelineGraph true 1 0
      [{ query := "B", target := "A", alntmscore := some 1 }]).2 =
      some ⟨[[some 0, none], [some 1, some 0]],
            [[some 0, none], [some 0, some (1 - clip01 1)]]⟩ := by
    simp [pipelineGraph, resolveEdges, resolveTm, nodeIds, insertId, pipelineEdges,
      filterEdges, sortEdges, edgeLE, keepTopK, keepTopKAux, assemble, rowsFrom, rowFor,
      groupEdges, mapIx, idIx, List.filterMap_cons, List.replicate]
  exact ⟨hg,
    (c6_self_loop true 1 0 [{ query := "B", target := "A", alntmscore := some 1 }] _ hg).1
      1 [some 1, some 0] rfl⟩

/-! ### Claim C7 -/

/-- C7: row ordering invariant.  For every `dists` row of an assembled graph,
the populated entries after column 0 are non-decreasing, and the populated
prefix is followed only by sentinel (`+inf`, modelled `none`) entries. -/
theorem c7_row_sorted (hasAln : Bool) (K : ℕ) (minTm : ℚ) (rs : List EdgeRecord)
    (g : KnnGraph) (hg : (pipelineGraph hasAln K minTm rs).2 = some g) :
    ∀ rd ∈ g.dists, ((rd.drop 1).filterMap id).Sorted (· ≤ ·) ∧
      rd.drop 1 = ((rd.drop 1).filterMap id).map some ++
        List.replicate ((rd.drop 1).length - ((rd.drop 1).filterMap id).length) none := by
  intro rd hrd
  rcases List.mem_iff_get?.mp hrd with ⟨i, hi⟩
  rcases pipelineGraph_row hg with ⟨hleni, hlend, hrow⟩
  obtain ⟨hlt, -⟩ := List.get?_eq_some.mp hi
  rw [hlend] at hlt
  rcases hrow i hlt with ⟨q, r, hq, hrf, hgi, hgd⟩
  rw [hi] at hgd
  rcases rowFor_spec hrf with ⟨js, hjs, h1, h2⟩
  rw [Option.some.inj hgd, h2, List.drop_succ_cons, List.drop_zero,
    filterMap_id_some_padded]
  have hsorted : ((groupEdges (pipelineEdges K minTm (resolveEdges hasAln rs)) q).take
      (min K (groupEdges (pipelineEdges K minTm (resolveEdges hasAln rs)) q).length)).Pairwise
      (fun a b => b.tm ≤ a.tm) := by
    refine List.Pairwise.sublist (List.take_sublist _ _) ?_
    rw [pipelineEdges, groupEdges_keepTopK]
    exact List.Pairwise.sublist (List.take_sublist _ _)
      (sorted_tm_groupEdges (filterEdges minTm (resolveEdges hasAln rs)) q)
  constructor
  · refine List.pairwise_map.mpr (hsorted.imp ?_)
    intro a b hab
    have hcl : clip01 b.tm ≤ clip01 a.tm :=
      max_le_max (le_refl 0) (min_le_min hab (le_refl 1))
    linarith [hcl]
  · rw [List.length_append, List.length_map, List.length_map, List.length_replicate,
      Nat.add_sub_cancel_left]
    simp only [List.map_map]
    rfl

theorem c7_row_sorted_witness :
    ((([some (0 : ℚ), some (1 - clip01 1), none].drop 1).filterMap id).Sorted (· ≤ ·)) ∧
    [some (0 : ℚ), some (1 - clip01 1), none].drop 1 =
      (([some (0 : ℚ), some (1 - clip01 1), none].drop 1).filterMap id).map some ++
        List.replicate (([some (0 : ℚ), some (1 - clip01 1), none].drop 1).length -
          (([some (0 : ℚ), some (1 - clip01 1), none].drop 1).filterMap id).length) none := by
  have hg : (pipelineGraph true 2 0
      [{ query := "B", target := "A", alntmscore := some 1 }]).2 =
      some ⟨[[some 0, none, none], [some 1, some 0, none]],
            [[some 0, none, none], [some 0, some (1 - clip01 1), none]]⟩ := by
    simp [pipelineGraph, resolveEdges, resolveTm, nodeIds, insertId, pipelineEdges,
      filterEdges, sortEdges, edgeLE, keepTopK, keepTopKAux, assemble, rowsFrom, rowFor,
      groupEdges, mapIx, idIx, List.filterMap_cons, List.replicate]
  exact c7_row_sorted true 2 0 [{ query := "B", target := "A", alntmscore := some 1 }] _ hg
    [some 0, some (1 - clip01 1), none]
    (List.mem_cons_of_mem _ (List.mem_cons_self _ _))

/-! ### Claim C10 -/

/-- C10: the node index is built from the same resolved edge set that later
filters only shrink, so graph assembly always succeeds (every target lookup
hits the index) and every populated index entry lies in `[0, N)`. -/
theorem c10_target_lookup_total (hasAln : Bool) (K : ℕ) (minTm : ℚ) (rs : List EdgeRecord) :
    ((pipelineGraph hasAln K minTm rs).2).isSome = true ∧
    ∀ g, (pipelineGraph hasAln K minTm rs).2 = some g →
      ∀ ri ∈ g.indices, ∀ j : ℕ, some j ∈ ri →
        j < (pipelineGraph hasAln K minTm rs).1.length := by
  constructor
  · rcases pipelineGraph_isSome hasAln K minTm rs with ⟨g, hg⟩
    rw [hg]
    rfl
  · intro g hg ri hri j hj
    rcases List.mem_iff_get?.mp hri with ⟨i, hi⟩
    rcases pipelineGraph_row hg with ⟨hleni, hlend, hrow⟩
    obtain ⟨hlt, -⟩ := List.get?_eq_some.mp hi
    rw [hleni] at hlt
    rcases hrow i hlt with ⟨q, r, hq, hrf, hgi, hgd⟩
    rw [hi] at hgi
    rcases rowFor_spec hrf with ⟨js, hjs, h1, -⟩
    rw [Option.some.inj hgi, h1] at hj
    show j < (nodeIds (resolveEdges hasAln rs)).length
    rcases List.mem_cons.mp hj with h0 | hj
    · cases Option.some.inj h0
      exact hlt
    · rcases List.mem_append.mp hj with hj | hj
      · rcases List.mem_map.mp hj with ⟨j0, hj0, heq⟩
        cases Option.some.inj heq
        exact (mapIx_length_bound hjs).2 _ hj0
      · exact absurd (List.eq_of_mem_replicate hj) (by simp)

theorem c10_target_lookup_total_witness :
    ((pipelineGraph true 1 0 [{ query := "B", target := "A", alntmscore := some 1 }]).2).isSome
        = true ∧
    (0 : ℕ) < (pipelineGraph true 1 0
        [{ query := "B", target := "A", alntmscore := some 1 }]).1.length := by
  have hg : (pipelineGraph true 1 0
      [{ query := "B", target := "A", alntmscore := some 1 }]).2 =
      some ⟨[[some 0, none], [some 1, some 0]],
            [[some 0, none], [some 0, some (1 - clip01 1)]]⟩ := by
    simp [pipelineGraph, resolveEdges, resolveTm, nodeIds, insertId, pipelineEdges,
      filterEdges, sortEdges, edgeLE, keepTopK, keepTopKAux, assemble, rowsFrom, rowFor,
      groupEdges, mapIx, idIx, List.filterMap_cons, List.replicate]
  exact ⟨(c10_target_lookup_total true 1 0
      [{ query := "B", target := "A", alntmscore := some 1 }]).1,
    (c10_target_lookup_total true 1 0
        [{ query := "B", target := "A", alntmscore := some 1 }]).2 _ hg
      [some 1, some 0] (List.mem_cons_of_mem _ (List.mem_cons_self _ _)) 0
      (List.mem_cons_of_mem _ (List.mem_cons_self _ _))⟩

end FoldseekUmap
